import Mathlib

/-!
Verification of the onvif-ai event pipeline against its specification.

The definitions below are shallow embeddings of the TypeScript sources:
the alert throttle (alert.service.ts, AlertService.shouldSendAlert and
AlertService.sendAlert), the webhook delivery loop (AlertService.sendWebhook),
the event normalizer (event.service.ts, EventService.parseEventXml and
EventService.extractEventType), the push HTTP receiver
(EventService.handleHttpRequest) and the poll-mode subscription manager
(EventService.pollForEvents).  Times are modelled as integers (milliseconds,
as produced by the runtime clock), strings as lists of characters.
-/

namespace OnvifAI

/-! ## Throttle engine (alert.service.ts)

AlertService keeps one ThrottleRecord per event category in a map.  Because
each call of shouldSendAlert reads and writes only the record of the incoming
category, the per-category behaviour is embedded as a step function on an
optional record: the argument is none exactly when the map has no entry for
the category yet.  The debounceTimer field of the source record only drives a
log line when it expires and never influences a decision or the other three
fields, so it is not part of the state. -/

structure ThrottleConfig where
  windowMs : Int
  maxAlertsPerWindow : Int
  debounceMs : Int
deriving DecidableEq

structure ThrottleRecord where
  count : Int
  windowStart : Int
  lastEventTime : Int
deriving DecidableEq

/-- Embeds AlertService.shouldSendAlert (alert.service.ts lines 153-212) for a
single category: the record is created with count 0, windowStart now,
lastEventTime 0 when absent; the window is reset when at least windowMs
elapsed; a full window suppresses; an admitted alert less than debounceMs ago
suppresses; otherwise the event is admitted, incrementing count and stamping
lastEventTime.  Returns the stored record and the decision. -/
def shouldSendAlert (cfg : ThrottleConfig) (rec? : Option ThrottleRecord)
    (now : Int) : ThrottleRecord × Bool :=
  let r0 := rec?.getD { count := 0, windowStart := now, lastEventTime := 0 }
  let r1 := if cfg.windowMs ≤ now - r0.windowStart then
      { r0 with count := 0, windowStart := now } else r0
  if cfg.maxAlertsPerWindow ≤ r1.count then (r1, false)
  else if 0 < r1.lastEventTime ∧ now - r1.lastEventTime < cfg.debounceMs then
    (r1, false)
  else ({ r1 with count := r1.count + 1, lastEventTime := now }, true)

/-- The throttle decision procedure exactly as the specification words it
(spec section 4.4): step 1 resets the window, step 2 rate-limits, step 3
debounces, step 4 admits.  Written from the spec text, to be compared with
the source-derived shouldSendAlert. -/
def shouldSendAlertSpec (cfg : ThrottleConfig) (rec? : Option ThrottleRecord)
    (now : Int) : ThrottleRecord × Bool :=
  let r0 := match rec? with
    | none => { count := 0, windowStart := now, lastEventTime := 0 }
    | some r => r
  let r1 := if now - r0.windowStart ≥ cfg.windowMs then
      { count := 0, windowStart := now, lastEventTime := r0.lastEventTime }
    else r0
  if r1.count ≥ cfg.maxAlertsPerWindow then (r1, false)
  else if r1.lastEventTime > 0 ∧ now - r1.lastEventTime < cfg.debounceMs then
    (r1, false)
  else
    ({ count := r1.count + 1, windowStart := r1.windowStart,
       lastEventTime := now }, true)

/-- Runs the throttle over a list of same-category arrival times, returning
the final record and the list of per-event decisions (true = admitted). -/
def runThrottle (cfg : ThrottleConfig) :
    Option ThrottleRecord → List Int → Option ThrottleRecord × List Bool
  | s, [] => (s, [])
  | s, t :: ts =>
      let step := shouldSendAlert cfg s t
      let rest := runThrottle cfg (some step.1) ts
      (rest.1, step.2 :: rest.2)

def throttleState (cfg : ThrottleConfig) (s : Option ThrottleRecord)
    (ts : List Int) : Option ThrottleRecord :=
  (runThrottle cfg s ts).1

def throttleDecisions (cfg : ThrottleConfig) (s : Option ThrottleRecord)
    (ts : List Int) : List Bool :=
  (runThrottle cfg s ts).2

/-- Arrival times of the admitted events of a run. -/
def admittedTimes (cfg : ThrottleConfig) (s : Option ThrottleRecord)
    (ts : List Int) : List Int :=
  ((ts.zip (throttleDecisions cfg s ts)).filter (fun p => p.2)).map
    (fun p => p.1)

/-- True when the step taken for an event at time now either creates the
record or resets the window: the starts of the throttle windows. -/
def throttleBlockStart (cfg : ThrottleConfig) (rec? : Option ThrottleRecord)
    (now : Int) : Bool :=
  match rec? with
  | none => true
  | some r => decide (cfg.windowMs ≤ now - r.windowStart)

/-- True when no step of the run (from an existing record) creates a record
or resets the window, i.e. the whole run stays inside one throttle window. -/
def resetFreeRun (cfg : ThrottleConfig) :
    Option ThrottleRecord → List Int → Bool
  | _, [] => true
  | s, t :: ts =>
      !(throttleBlockStart cfg s t) &&
        resetFreeRun cfg (some (shouldSendAlert cfg s t).1) ts

/-! ## String helpers

The TypeScript sources work on JavaScript strings with split, toLowerCase,
includes, startsWith, regex scans and per-character replacement.  Strings are
embedded as lists of characters and those operations are defined here from
scratch so that every string claim is decidable by evaluation.  The case
mapping is the ASCII one (all inputs of interest are ASCII). -/

/-- Prefix test on character lists, embedding String.prototype.startsWith. -/
def startsWithL : List Char → List Char → Bool
  | [], _ => true
  | _ :: _, [] => false
  | a :: as, b :: bs => a == b && startsWithL as bs

/-- Index of the leftmost occurrence of pat in s, none when absent.  This is
the primitive behind the embeddings of String.prototype.includes and of the
global regex scans of the source. -/
def findSubIdx (pat : List Char) : List Char → Option Nat
  | [] => if startsWithL pat [] then some 0 else none
  | c :: t =>
      if startsWithL pat (c :: t) then some 0
      else (findSubIdx pat t).map (· + 1)

/-- Substring test, embedding String.prototype.includes. -/
def containsSub (pat s : List Char) : Bool := (findSubIdx pat s).isSome

/-- Embeds JavaScript String.prototype.split with separator '/':
the result always has one more group than there are separators. -/
def splitOnSlash : List Char → List (List Char)
  | [] => [[]]
  | c :: rest =>
      if c == '/' then [] :: splitOnSlash rest
      else
        match splitOnSlash rest with
        | [] => [[c]]
        | g :: gs => (c :: g) :: gs

/-- ASCII lower-casing, embedding String.prototype.toLowerCase. -/
def lowerStr (s : List Char) : List Char := s.map Char.toLower

/-- Embeds the replacement regex of extractEventType: every character outside
a-z and 0-9 is replaced (individually, the regex has no quantifier) by an
underscore. -/
def sanitizeChars (s : List Char) : List Char :=
  s.map fun c =>
    if ('a' ≤ c ∧ c ≤ 'z') ∨ ('0' ≤ c ∧ c ≤ '9') then c else '_'

def unknownS : List Char := "unknown".toList
def peopleS : List Char := "people".toList
def humanS : List Char := "human".toList
def personS : List Char := "person".toList
def objectS : List Char := "object".toList
def analyticsS : List Char := "analytics".toList
def peopledetectionS : List Char := "peopledetection".toList
def objectdetectionS : List Char := "objectdetection".toList

/-! ## Category classification (event.service.ts, extractEventType) -/

/-- Embeds EventService.extractEventType (event.service.ts lines 529-562):
an empty topic is unknown; a topic with at least two '/'-separated parts is
classified from its last part (people/human/person patterns first, then
object combined with analytics over the whole topic, else the sanitized
lower-cased last part); a topic without separator falls through to the
sanitized lower-cased whole topic. -/
def extractEventType (topic : List Char) : List Char :=
  if topic = [] then unknownS
  else
    let parts := splitOnSlash topic
    if 2 ≤ parts.length then
      let lastPart := parts.getLastD []
      if containsSub peopleS (lowerStr lastPart) ||
          containsSub humanS (lowerStr lastPart) ||
          containsSub personS (lowerStr lastPart) then peopledetectionS
      else if containsSub objectS (lowerStr lastPart) &&
          containsSub analyticsS (lowerStr topic) then objectdetectionS
      else sanitizeChars (lowerStr lastPart)
    else sanitizeChars (lowerStr topic)

/-- The last '/'-separated segment of a topic. -/
def lastSegment (topic : List Char) : List Char :=
  (splitOnSlash topic).getLastD []

/-- The classification as the amended claim words it: empty topic is unknown;
a topic containing a path separator is classified from its last segment; a
nonempty topic without separator is lower-cased and sanitized as a whole
(it is not mapped to unknown). -/
def extractEventTypeSpec (topic : List Char) : List Char :=
  if topic = [] then unknownS
  else if '/' ∈ topic then
    if containsSub peopleS (lowerStr (lastSegment topic)) ||
        containsSub humanS (lowerStr (lastSegment topic)) ||
        containsSub personS (lowerStr (lastSegment topic)) then peopledetectionS
    else if containsSub objectS (lowerStr (lastSegment topic)) &&
        containsSub analyticsS (lowerStr topic) then objectdetectionS
    else sanitizeChars (lowerStr (lastSegment topic))
  else sanitizeChars (lowerStr topic)

/-! ## Event normalizer (event.service.ts, parseEventXml)

parseEventXml finds every NotificationMessage block with a global lazy regex
and builds one ProcessedEvent per block.  The block scan is embedded exactly
(leftmost open tag, then shortest stretch up to the close tag, repeat after
it); the per-block id, generated in the source from the clock and a random
suffix, is modelled by an id generator indexed by the block position.  The
timestamp, source and data extraction of a block do not bear on any claim
and are omitted from the event record; the topic scan is embedded by its
first-candidate match (regex backtracking to a later topic tag candidate and
the no-newline restriction of the dot are not modelled, no claim depends on
them). -/

def openTagS : List Char := "<wsnt:NotificationMessage>".toList
def closeTagS : List Char := "</wsnt:NotificationMessage>".toList
def topicOpenS : List Char := "<wsnt:Topic".toList
def topicCloseS : List Char := "</wsnt:Topic>".toList

/-- Fuel-indexed scan for NotificationMessage blocks: the body of the global
regex match loop of parseEventXml.  Each step finds the leftmost open tag,
then the nearest close tag after it, emits the enclosed block (tags
included) and continues after the close tag. -/
def extractBlocksF : Nat → List Char → List (List Char)
  | 0, _ => []
  | fuel+1, s =>
      match findSubIdx openTagS s with
      | none => []
      | some i =>
          let afterOpen := s.drop (i + openTagS.length)
          match findSubIdx closeTagS afterOpen with
          | none => []
          | some j =>
              (openTagS ++ afterOpen.take j ++ closeTagS) ::
                extractBlocksF fuel (afterOpen.drop (j + closeTagS.length))

/-- All NotificationMessage blocks of a payload, in order: the list the
source iterates over.  The fuel s.length + 1 always suffices because every
emitted block consumes at least the two tags. -/
def extractBlocks (s : List Char) : List (List Char) :=
  extractBlocksF (s.length + 1) s

/-- Embeds the topic regex of parseEventXml: leftmost topic open tag, an
attribute stretch up to the closing angle bracket, then the lazily matched
topic text up to the topic close tag; unknown when any piece is missing. -/
def extractTopic (block : List Char) : List Char :=
  match findSubIdx topicOpenS block with
  | none => unknownS
  | some i =>
      let rest := (block.drop (i + topicOpenS.length)).dropWhile
        (fun c => c ≠ '>')
      match rest with
      | '>' :: rest2 =>
          match findSubIdx topicCloseS rest2 with
          | none => unknownS
          | some j => rest2.take j
      | _ => unknownS

structure PEvent where
  id : List Char
  topic : List Char
  type : List Char
  raw : List Char
deriving DecidableEq

/-- The per-block event construction of parseEventXml. -/
def mkProcessedEvent (id block : List Char) : PEvent :=
  { id := id, topic := extractTopic block,
    type := extractEventType (extractTopic block), raw := block }

/-- Embeds EventService.parseEventXml (event.service.ts lines 391-468): one
event per extracted block, ids drawn from the generator in block order.  The
surrounding try/catch of the source never fires (no statement of the loop
throws), so the model is total. -/
def parseEventXml (idGen : Nat → List Char) (xmlBody : List Char) :
    List PEvent :=
  ((extractBlocks xmlBody).enum).map fun p => mkProcessedEvent (idGen p.1) p.2

/-- A payload consisting exactly of the given block bodies, each wrapped in
the notification tags. -/
def payloadOf (mids : List (List Char)) : List Char :=
  (mids.map fun m => openTagS ++ m ++ closeTagS).flatten

/-- Well-formedness of a block body: the close tag must not occur earlier
than at the very end of body ++ close tag (no occurrence inside the body and
none straddling the boundary), so the lazy scan ends the block exactly at
its own close tag. -/
def goodMid (mid : List Char) : Prop :=
  findSubIdx closeTagS ((mid ++ closeTagS).dropLast) = none

/-- A fully malformed block: no open-tag occurrence anywhere in it, even
straddling its boundary with a following open tag. -/
def badBlock (b : List Char) : Prop :=
  findSubIdx openTagS ((b ++ openTagS).dropLast) = none

instance (mid : List Char) : Decidable (goodMid mid) := by
  unfold goodMid
  infer_instance

instance (b : List Char) : Decidable (badBlock b) := by
  unfold badBlock
  infer_instance

/-! ## Push notification receiver (event.service.ts, handleHttpRequest) -/

structure HttpResponse where
  status : Nat
  body : List Char
deriving DecidableEq

def postS : List Char := "POST".toList
def eventsPathS : List Char := "/events/".toList
def notFoundS : List Char := "Not Found".toList
def soapAckS : List Char :=
  ("<?xml version=\"1.0\" encoding=\"UTF-8\"?><soap:Envelope xmlns:soap=\"http://www.w3.org/2003/05/soap-envelope\"><soap:Body></soap:Body></soap:Envelope>").toList

/-- Embeds EventService.processEventNotification: parse and emit the events.
Its try/catch swallows every error, so the caller always continues; the
model is accordingly total. -/
def processEventNotification (idGen : Nat → List Char) (xmlBody : List Char) :
    List PEvent :=
  parseEventXml idGen xmlBody

/-- Embeds EventService.handleHttpRequest (event.service.ts lines 325-355)
after the body has been fully read: a POST whose pathname starts with the
events prefix is processed and acknowledged with status 200 and the minimal
empty SOAP envelope; everything else gets status 404.  Returns the response
and the events handed to the bus. -/
def handleHttpRequest (idGen : Nat → List Char)
    (method pathname body : List Char) : HttpResponse × List PEvent :=
  if method = postS ∧ startsWithL eventsPathS pathname then
    ({ status := 200, body := soapAckS }, processEventNotification idGen body)
  else ({ status := 404, body := notFoundS }, [])

/-! ## Webhook delivery (alert.service.ts, sendWebhook and sendAlert) -/

inductive AttemptOutcome where
  | ok2xx
  | non2xx
  | timeout
deriving DecidableEq

/-- An attempt fails when fetch resolves with a non-2xx status (the loop
throws on response.ok false) or the timeout signal aborts the fetch. -/
def attemptFails : AttemptOutcome → Bool
  | .ok2xx => false
  | .non2xx => true
  | .timeout => true

/-- Embeds the retry loop of AlertService.sendWebhook (alert.service.ts
lines 307-344).  The list gives, for each of the configured attempts in
order, the outcome its fetch would have; the length of the list is the
configured retryAttempts.  Result: how many fetch calls were made and
whether the loop returned successfully (false means the final throw after
exhausting every attempt, the delivery failure). -/
def sendWebhook : List AttemptOutcome → Nat × Bool
  | [] => (0, false)
  | o :: rest =>
      if attemptFails o then
        let r := sendWebhook rest
        (r.1 + 1, r.2)
      else (1, true)

inductive AlertOutcome where
  | alertSent
  | alertFailed
  | throttled
deriving DecidableEq

/-- The delivery part of AlertService.sendAlert: a successful webhook emits
alertSent, an exhausted one is caught and emits alertFailed — the exception
never escapes sendAlert. -/
def sendAlertDelivery (outcomes : List AttemptOutcome) : AlertOutcome :=
  if (sendWebhook outcomes).2 then .alertSent else .alertFailed

/-- The dispatcher loop (ONVIFApp.handleEvent driven by onAnyEvent): each
event is handed to sendAlert in turn; since sendAlert never throws, a failed
delivery does not stop the processing of later events. -/
def dispatchEvents : List (List AttemptOutcome) → List AlertOutcome
  | [] => []
  | e :: es => sendAlertDelivery e :: dispatchEvents es

/-- Embeds AlertService.sendAlert (alert.service.ts lines 108-148) for an
enabled service with a configured webhook and throttling enabled: the
throttle record is read and updated first; only an admitted event reaches
the webhook, and the delivery outcome never touches the record again. -/
def sendAlert (cfg : ThrottleConfig) (rec? : Option ThrottleRecord)
    (now : Int) (outcomes : List AttemptOutcome) :
    Option ThrottleRecord × AlertOutcome :=
  let step := shouldSendAlert cfg rec? now
  if step.2 then (some step.1, sendAlertDelivery outcomes)
  else (some step.1, .throttled)

/-! ## Poll loop (event.service.ts, startEventPolling and pollForEvents) -/

/-- The state consulted by the early returns of pollForEvents (event.service.ts
lines 189-195): the running flag, the presence of the polling configuration
and the subscription flag.  EventService has no field recording an in-flight
poll cycle, so no guard can depend on one. -/
structure EventServiceGuards where
  isRunning : Bool
  hasPollingConfig : Bool
  subscriptionActive : Bool
deriving DecidableEq

/-- A fired tick is a no-op exactly when one of the three guards fails. -/
def pollCycleSkipped (g : EventServiceGuards) : Bool :=
  !g.isRunning || !g.hasPollingConfig || !g.subscriptionActive

inductive PollAction where
  | tick
  | finish
deriving DecidableEq

/-- Embeds the timer of startEventPolling (event.service.ts lines 168-184):
setInterval invokes the asynchronous callback on every tick, so unless a
guard makes the cycle a no-op, every tick starts one more pollForEvents
invocation regardless of how many are still in flight; a finish retires
one.  The number tracked is the count of in-flight poll cycles. -/
def pollLoopStep (g : EventServiceGuards) (inFlight : Nat) :
    PollAction → Nat
  | .tick => if pollCycleSkipped g then inFlight else inFlight + 1
  | .finish => inFlight - 1

def pollLoopRun (g : EventServiceGuards) (acts : List PollAction) : Nat :=
  acts.foldl (pollLoopStep g) 0

/-! ## Subscription retry and recreate (event.service.ts, pollForEvents) -/

structure PollState where
  isRunning : Bool
  subscriptionActive : Bool
  retryCount : Nat
deriving DecidableEq

structure PollCycleResult where
  state : PollState
  pulled : Bool
  recreateAttempted : Bool
deriving DecidableEq

/-- Embeds one cycle of EventService.pollForEvents (event.service.ts lines
189-245) together with createPullPointSubscription (lines 150-163): not
running or an inactive subscription is a no-op without a pullMessages call;
a successful pull resets retryCount; a failed pull increments it, and when
the incremented count reaches maxRetries (with retry configured) the
subscription is recreated — success reactivates with retryCount 0, failure
deactivates the subscription (createPullPointSubscription swallows the
error when retryOnError is set and clears subscriptionActive).  Without
retry headroom the subscription is deactivated directly.  pulled records
whether a Gateway pull call was made, recreateAttempted whether a recreate
call was made. -/
def pollForEvents (retryOnError : Bool) (maxRetries : Nat) (s : PollState)
    (pullOk recreateOk : Bool) : PollCycleResult :=
  if !s.isRunning then ⟨s, false, false⟩
  else if !s.subscriptionActive then ⟨s, false, false⟩
  else if pullOk then ⟨{ s with retryCount := 0 }, true, false⟩
  else
    let rc := s.retryCount + 1
    if retryOnError ∧ rc ≤ maxRetries then
      if maxRetries ≤ rc then
        if recreateOk then
          ⟨{ s with subscriptionActive := true, retryCount := 0 }, true, true⟩
        else
          ⟨{ s with subscriptionActive := false, retryCount := rc }, true, true⟩
      else ⟨{ s with retryCount := rc }, true, false⟩
    else ⟨{ s with subscriptionActive := false, retryCount := rc }, true, false⟩

/-- The state after n consecutive failing poll cycles (every pull fails,
every recreate attempt has the given outcome), from a freshly active
subscription. -/
def runFailingPolls (maxRetries : Nat) (recreateOk : Bool) : Nat → PollState
  | 0 => ⟨true, true, 0⟩
  | n+1 =>
      (pollForEvents true maxRetries (runFailingPolls maxRetries recreateOk n)
        false recreateOk).state

/-! ## Derived observers -/

/-- The stored count of a possibly absent throttle record (0 when absent,
matching the count a record is created with). -/
def countO : Option ThrottleRecord → Int
  | none => 0
  | some r => r.count

/-! # Theorems -/

/-! ## Throttle step lemmas -/

theorem runThrottle_cons (cfg : ThrottleConfig) (s : Option ThrottleRecord)
    (t : Int) (ts : List Int) :
    runThrottle cfg s (t :: ts) =
      ((runThrottle cfg (some (shouldSendAlert cfg s t).1) ts).1,
        (shouldSendAlert cfg s t).2 ::
          (runThrottle cfg (some (shouldSendAlert cfg s t).1) ts).2) := rfl

theorem throttleDecisions_cons (cfg : ThrottleConfig)
    (s : Option ThrottleRecord) (t : Int) (ts : List Int) :
    throttleDecisions cfg s (t :: ts) =
      (shouldSendAlert cfg s t).2 ::
        throttleDecisions cfg (some (shouldSendAlert cfg s t).1) ts := rfl

theorem throttleState_cons (cfg : ThrottleConfig) (s : Option ThrottleRecord)
    (t : Int) (ts : List Int) :
    throttleState cfg s (t :: ts) =
      throttleState cfg (some (shouldSendAlert cfg s t).1) ts := rfl

/-- An admitted step stamps the admission time into the record. -/
theorem admit_sets_last (cfg : ThrottleConfig) (s : Option ThrottleRecord)
    (t : Int) (h : (shouldSendAlert cfg s t).2 = true) :
    (shouldSendAlert cfg s t).1.lastEventTime = t := by
  simp only [shouldSendAlert] at h ⊢
  split_ifs at h ⊢ <;> simp_all

/-- A step taken while the debounce gate is strictly open neither admits nor
changes the stored last admission time. -/
theorem step_debounced (cfg : ThrottleConfig) (r : ThrottleRecord) (t : Int)
    (hpos : 0 < r.lastEventTime) (hgap : t - r.lastEventTime < cfg.debounceMs) :
    (shouldSendAlert cfg (some r) t).1.lastEventTime = r.lastEventTime ∧
      (shouldSendAlert cfg (some r) t).2 = false := by
  simp only [shouldSendAlert, Option.getD_some]
  split_ifs <;> simp_all

/-- Running a whole segment of events that all fall inside the debounce span
of the record leaves the last admission time untouched. -/
theorem debounce_segment (cfg : ThrottleConfig) (ts : List Int) :
    ∀ r : ThrottleRecord, 0 < r.lastEventTime →
    (∀ x ∈ ts, x - r.lastEventTime < cfg.debounceMs) →
    ∃ r', throttleState cfg (some r) ts = some r' ∧
      r'.lastEventTime = r.lastEventTime := by
  induction ts with
  | nil => exact fun r _ _ => ⟨r, rfl, rfl⟩
  | cons t ts ih =>
      intro r hpos hall
      have hstep := step_debounced cfg r t hpos (hall t (by simp))
      rw [throttleState_cons]
      obtain ⟨r', h1, h2⟩ := ih (shouldSendAlert cfg (some r) t).1
        (by rw [hstep.1]; exact hpos)
        (by intro x hx; rw [hstep.1]; exact hall x (by simp [hx]))
      exact ⟨r', h1, by rw [h2, hstep.1]⟩

/-! ## Claim C1: decision order of the throttle step, and the burst scenario -/

/-- C1.  The throttle step of the source follows exactly the four-step
procedure of the specification (window reset, then rate limit, then
debounce, then admit with count increment and admission stamp), and in the
scenario with windowMs 60000, maxAlertsPerWindow 5, debounceMs 5000, six
same-category events at offsets 0, 1000, 2000, 3000, 4000, 5000 from any
positive clock origin, exactly the first and the last are admitted.  The
positive origin reflects the runtime clock (milliseconds since the epoch),
which is positive whenever the process runs; at a literal clock value 0 the
sentinel lastEventTime 0 would disable the debounce gate once. -/
theorem throttle_order_and_burst_scenario :
    (∀ (cfg : ThrottleConfig) (rec? : Option ThrottleRecord) (now : Int),
      shouldSendAlert cfg rec? now = shouldSendAlertSpec cfg rec? now) ∧
    ∀ t0 : Int, 0 < t0 →
      throttleDecisions ⟨60000, 5, 5000⟩ none
          [t0, t0 + 1000, t0 + 2000, t0 + 3000, t0 + 4000, t0 + 5000]
        = [true, false, false, false, false, true] := by
  constructor
  · intro cfg rec? now
    cases rec? <;> rfl
  · intro t0 ht
    have e1 : shouldSendAlert ⟨60000, 5, 5000⟩ none t0
        = (⟨1, t0, t0⟩, true) := by
      simp only [shouldSendAlert, Option.getD]
      split_ifs <;> simp_all <;> omega
    have e2 : ∀ d : Int, 0 < d → d < 5000 →
        shouldSendAlert ⟨60000, 5, 5000⟩ (some ⟨1, t0, t0⟩) (t0 + d)
          = (⟨1, t0, t0⟩, false) := by
      intro d hd hd'
      simp only [shouldSendAlert, Option.getD]
      split_ifs <;> simp_all <;> omega
    have e6 : shouldSendAlert ⟨60000, 5, 5000⟩ (some ⟨1, t0, t0⟩) (t0 + 5000)
        = (⟨2, t0, t0 + 5000⟩, true) := by
      simp only [shouldSendAlert, Option.getD]
      split_ifs <;> simp_all <;> omega
    simp only [throttleDecisions, runThrottle, e1, e2 1000 (by omega) (by omega),
      e2 2000 (by omega) (by omega), e2 3000 (by omega) (by omega),
      e2 4000 (by omega) (by omega), e6]

theorem throttle_order_and_burst_scenario_witness :
    (0 : Int) < 1 ∧
    throttleDecisions ⟨60000, 5, 5000⟩ none
        [1, 1 + 1000, 1 + 2000, 1 + 3000, 1 + 4000, 1 + 5000]
      = [true, false, false, false, false, true] :=
  ⟨by decide, throttle_order_and_burst_scenario.2 1 (by decide)⟩

/-! ## Claim C2: window admission cap -/

theorem step_count_le (cfg : ThrottleConfig) (r : ThrottleRecord) (t : Int)
    (h0 : 0 ≤ cfg.maxAlertsPerWindow) (hr : r.count ≤ cfg.maxAlertsPerWindow) :
    (shouldSendAlert cfg (some r) t).1.count ≤ cfg.maxAlertsPerWindow := by
  simp only [shouldSendAlert, Option.getD_some]
  split_ifs <;> simp_all <;> omega

/-- The stored count never exceeds the per-window maximum. -/
theorem run_count_le (cfg : ThrottleConfig) (ts : List Int) :
    ∀ r : ThrottleRecord, 0 ≤ cfg.maxAlertsPerWindow →
    r.count ≤ cfg.maxAlertsPerWindow →
    countO (throttleState cfg (some r) ts) ≤ cfg.maxAlertsPerWindow := by
  induction ts with
  | nil => intro r _ hr; exact hr
  | cons t ts ih =>
      intro r h0 hr
      rw [throttleState_cons]
      exact ih _ h0 (step_count_le cfg r t h0 hr)

/-- Inside a window (no reset fires) the count advances exactly with the
admissions. -/
theorem step_count_noReset (cfg : ThrottleConfig) (r : ThrottleRecord)
    (t : Int) (h : throttleBlockStart cfg (some r) t = false) :
    (shouldSendAlert cfg (some r) t).1.count =
      r.count + (if (shouldSendAlert cfg (some r) t).2 then 1 else 0) := by
  simp only [throttleBlockStart, decide_eq_false_iff_not] at h
  simp only [shouldSendAlert, Option.getD_some]
  split_ifs <;> simp_all

/-- A step that creates the record or resets the window leaves count 1 when
it admits and 0 when it suppresses. -/
theorem step_count_blockStart (cfg : ThrottleConfig)
    (s : Option ThrottleRecord) (t : Int)
    (h : throttleBlockStart cfg s t = true) :
    (shouldSendAlert cfg s t).1.count =
      if (shouldSendAlert cfg s t).2 then 1 else 0 := by
  cases s with
  | none =>
      simp only [shouldSendAlert, Option.getD_none]
      split_ifs <;> simp_all
  | some r =>
      simp only [throttleBlockStart, decide_eq_true_eq] at h
      simp only [shouldSendAlert, Option.getD_some]
      split_ifs <;> simp_all

theorem step_count_blockStart_le (cfg : ThrottleConfig)
    (s : Option ThrottleRecord) (t : Int) (h0 : 0 ≤ cfg.maxAlertsPerWindow)
    (h : throttleBlockStart cfg s t = true) :
    (shouldSendAlert cfg s t).1.count ≤ cfg.maxAlertsPerWindow := by
  have hc := step_count_blockStart cfg s t h
  by_cases hd : (shouldSendAlert cfg s t).2 = true
  · rw [hc, if_pos hd]
    cases s with
    | none =>
        simp only [shouldSendAlert, Option.getD_none] at hd
        split_ifs at hd <;> simp_all <;> omega
    | some r =>
        simp only [throttleBlockStart, decide_eq_true_eq] at h
        simp only [shouldSendAlert, Option.getD_some] at hd
        split_ifs at hd <;> simp_all <;> omega
  · rw [hc, if_neg hd]; exact h0

/-- Over a reset-free run the final count is the initial count plus the
number of admissions. -/
theorem resetFree_count (cfg : ThrottleConfig) (ts : List Int) :
    ∀ r : ThrottleRecord, resetFreeRun cfg (some r) ts = true →
    ∃ r', throttleState cfg (some r) ts = some r' ∧
      r'.count = r.count +
        ((throttleDecisions cfg (some r) ts).count true : Int) := by
  induction ts with
  | nil =>
      intro r _
      exact ⟨r, rfl, by simp [throttleDecisions, runThrottle]⟩
  | cons t ts ih =>
      intro r hfree
      simp only [resetFreeRun, Bool.and_eq_true, Bool.not_eq_true'] at hfree
      obtain ⟨hns, hrest⟩ := hfree
      obtain ⟨r', h1, h2⟩ := ih _ hrest
      refine ⟨r', by rw [throttleState_cons]; exact h1, ?_⟩
      rw [h2, step_count_noReset cfg r t hns, throttleDecisions_cons,
        List.count_cons]
      by_cases hd : (shouldSendAlert cfg (some r) t).2 = true <;>
        simp [hd] <;> push_cast <;> ring

/-- C2 (amended).  The rolling-interval bound fails on the code (see the
counterexample below); what the throttle does guarantee is the fixed-window
bound: for every configuration with a nonnegative maximum, every run from a
fresh category, and every window of that run — a step that creates the
record or resets the window, followed by steps in which no further reset
fires — the number of admitted events in that window is at most
maxAlertsPerWindow. -/
theorem fixed_window_admission_cap (cfg : ThrottleConfig)
    (h0 : 0 ≤ cfg.maxAlertsPerWindow) (pre : List Int) (t : Int)
    (block : List Int)
    (hstart : throttleBlockStart cfg (throttleState cfg none pre) t = true)
    (hfree : resetFreeRun cfg
      (some (shouldSendAlert cfg (throttleState cfg none pre) t).1) block
        = true) :
    ((throttleDecisions cfg (throttleState cfg none pre)
        (t :: block)).count true : Int) ≤ cfg.maxAlertsPerWindow := by
  set s := throttleState cfg none pre with hs
  set r1 := (shouldSendAlert cfg s t).1 with hr1
  obtain ⟨r', hst, hcount⟩ := resetFree_count cfg block r1 hfree
  have hblock : ((throttleDecisions cfg (some r1) block).count true : Int) =
      r'.count - r1.count := by omega
  have hr1le : r1.count ≤ cfg.maxAlertsPerWindow :=
    step_count_blockStart_le cfg s t h0 hstart
  have hfinal : countO (throttleState cfg (some r1) block) ≤
      cfg.maxAlertsPerWindow := run_count_le cfg block r1 h0 hr1le
  rw [hst] at hfinal
  simp only [countO] at hfinal
  rw [throttleDecisions_cons, List.count_cons, ← hr1]
  have hstep := step_count_blockStart cfg s t hstart
  rw [← hr1] at hstep
  cases hd : (shouldSendAlert cfg s t).2
  · rw [hd] at hstep
    norm_num at hstep
    norm_num
    omega
  · rw [hd] at hstep
    norm_num at hstep
    norm_num
    push_cast
    omega

theorem fixed_window_admission_cap_witness :
    (0 : Int) ≤ (⟨10, 2, 0⟩ : ThrottleConfig).maxAlertsPerWindow ∧
    throttleBlockStart ⟨10, 2, 0⟩ (throttleState ⟨10, 2, 0⟩ none []) 1 = true ∧
    resetFreeRun ⟨10, 2, 0⟩
      (some (shouldSendAlert ⟨10, 2, 0⟩ (throttleState ⟨10, 2, 0⟩ none []) 1).1)
      [2, 3] = true ∧
    ((throttleDecisions ⟨10, 2, 0⟩ (throttleState ⟨10, 2, 0⟩ none [])
        ([1, 2, 3])).count true : Int) ≤
      (⟨10, 2, 0⟩ : ThrottleConfig).maxAlertsPerWindow :=
  ⟨by decide, by decide, by decide,
    fixed_window_admission_cap ⟨10, 2, 0⟩ (by decide) [] 1 [2, 3] (by decide)
      (by decide)⟩

/-- C2 (counterexample to the rolling-interval form).  With windowMs 10,
maxAlertsPerWindow 2, debounceMs 0, the events at times 0, 8, 10, 11 are all
admitted (the fixed window resets at time 10), so the rolling interval from
8 inclusive to 18 exclusive — of length windowMs — contains 3 admitted
events, exceeding maxAlertsPerWindow = 2. -/
theorem rolling_window_cap_counterexample :
    throttleDecisions ⟨10, 2, 0⟩ none [0, 8, 10, 11]
        = [true, true, true, true] ∧
    ((admittedTimes ⟨10, 2, 0⟩ none [0, 8, 10, 11]).filter
        (fun x => decide (8 ≤ x ∧ x < 8 + (10 : Int)))).length = 3 ∧
    ¬ ((3 : Int) ≤ (⟨10, 2, 0⟩ : ThrottleConfig).maxAlertsPerWindow) := by
  refine ⟨by decide, by decide, by decide⟩

/-! ## Claim C5: debounce suppresses the second of two close events -/

/-- C5.  In any run of the throttle from a fresh category — a prefix pre,
then an event at time a, then intermediate arrivals mid, then an event at
time b — if a is positive (real clock times are), arrivals are ordered (the
intermediate times do not exceed b) and the gap between a and b is strictly
below debounceMs, then b is not admitted whenever a was: of two
same-category events closer than the debounce span, at most the first is
admitted. -/
theorem debounce_pair_suppression (cfg : ThrottleConfig) (pre mid : List Int)
    (a b : Int) (ha : 0 < a) (hmid : ∀ x ∈ mid, x ≤ b)
    (hgap : b - a < cfg.debounceMs)
    (hadm : (shouldSendAlert cfg (throttleState cfg none pre) a).2 = true) :
    (shouldSendAlert cfg
        (throttleState cfg
          (some (shouldSendAlert cfg (throttleState cfg none pre) a).1) mid)
        b).2 = false := by
  set s0 := throttleState cfg none pre with hs0
  set r1 := (shouldSendAlert cfg s0 a).1 with hr1
  have hlast : r1.lastEventTime = a := admit_sets_last cfg s0 a hadm
  obtain ⟨r', hst, hlast'⟩ := debounce_segment cfg mid r1
    (by rw [hlast]; exact ha)
    (by intro x hx; rw [hlast]; have := hmid x hx; omega)
  rw [hst]
  have := step_debounced cfg r' b
    (by rw [hlast', hlast]; exact ha)
    (by rw [hlast', hlast]; omega)
  exact this.2

theorem debounce_pair_suppression_witness :
    (0 : Int) < 1 ∧
    (shouldSendAlert ⟨60000, 5, 5000⟩ (throttleState ⟨60000, 5, 5000⟩ none [])
        1).2 = true ∧
    (shouldSendAlert ⟨60000, 5, 5000⟩
        (throttleState ⟨60000, 5, 5000⟩
          (some (shouldSendAlert ⟨60000, 5, 5000⟩
            (throttleState ⟨60000, 5, 5000⟩ none []) 1).1) [])
        2).2 = false :=
  ⟨by decide, by decide,
    debounce_pair_suppression ⟨60000, 5, 5000⟩ [] [] 1 2 (by decide)
      (by intro x hx; cases hx) (by decide) (by decide)⟩

/-! ## Claim C10: admission updates the record before delivery, never
rolled back -/

/-- An admitted step increments the count of the window it lands in. -/
theorem admit_increments_count (cfg : ThrottleConfig)
    (rec? : Option ThrottleRecord) (now : Int)
    (hadm : (shouldSendAlert cfg rec? now).2 = true) :
    (shouldSendAlert cfg rec? now).1.count =
      (if throttleBlockStart cfg rec? now then 0 else countO rec?) + 1 := by
  cases rec? with
  | none =>
      simp only [shouldSendAlert, Option.getD_none, throttleBlockStart,
        countO] at hadm ⊢
      split_ifs at hadm ⊢ <;> simp_all
  | some r =>
      simp only [shouldSendAlert, Option.getD_some, throttleBlockStart,
        countO] at hadm ⊢
      split_ifs at hadm ⊢ <;> simp_all <;> omega

/-- C10.  When sendAlert admits an event through the throttle, the record
update (count increment, admission stamp) happens at admission time: the
resulting throttle state is exactly the stepped record, identical for every
delivery outcome (nothing is rolled back on delivery failure), a delivery
failing every attempt still reports alertFailed with that same state, and a
later same-category event inside the debounce span is suppressed even
though the delivery failed. -/
theorem admission_precedes_delivery (cfg : ThrottleConfig)
    (rec? : Option ThrottleRecord) (now : Int)
    (outs outs' : List AttemptOutcome)
    (hadm : (shouldSendAlert cfg rec? now).2 = true) :
    (sendAlert cfg rec? now outs).1 = some (shouldSendAlert cfg rec? now).1 ∧
    (sendAlert cfg rec? now outs).1 = (sendAlert cfg rec? now outs').1 ∧
    (shouldSendAlert cfg rec? now).1.lastEventTime = now ∧
    (shouldSendAlert cfg rec? now).1.count =
      (if throttleBlockStart cfg rec? now then 0 else countO rec?) + 1 ∧
    ∀ t', 0 < now → t' - now < cfg.debounceMs →
      (shouldSendAlert cfg (sendAlert cfg rec? now outs).1 t').2 = false := by
  have hstate : (sendAlert cfg rec? now outs).1 =
      some (shouldSendAlert cfg rec? now).1 := by
    simp only [sendAlert, hadm, if_true]
  have hstate' : (sendAlert cfg rec? now outs').1 =
      some (shouldSendAlert cfg rec? now).1 := by
    simp only [sendAlert, hadm, if_true]
  have hlast := admit_sets_last cfg rec? now hadm
  refine ⟨hstate, by rw [hstate, hstate'], hlast,
    admit_increments_count cfg rec? now hadm, ?_⟩
  intro t' hpos hgap
  rw [hstate]
  exact (step_debounced cfg _ t' (by rw [hlast]; exact hpos)
    (by rw [hlast]; exact hgap)).2

theorem admission_precedes_delivery_witness :
    (shouldSendAlert ⟨60000, 5, 5000⟩ none 1).2 = true ∧
    (sendAlert ⟨60000, 5, 5000⟩ none 1 [AttemptOutcome.non2xx]).1 =
      some (shouldSendAlert ⟨60000, 5, 5000⟩ none 1).1 ∧
    (sendAlert ⟨60000, 5, 5000⟩ none 1 [AttemptOutcome.non2xx]).1 =
      (sendAlert ⟨60000, 5, 5000⟩ none 1 [AttemptOutcome.ok2xx]).1 ∧
    (shouldSendAlert ⟨60000, 5, 5000⟩ none 1).1.lastEventTime = 1 ∧
    (shouldSendAlert ⟨60000, 5, 5000⟩ none 1).1.count =
      (if throttleBlockStart ⟨60000, 5, 5000⟩ none 1 then 0
        else countO none) + 1 ∧
    ∀ t', (0 : Int) < 1 → t' - 1 < (⟨60000, 5, 5000⟩ : ThrottleConfig).debounceMs →
      (shouldSendAlert ⟨60000, 5, 5000⟩
        (sendAlert ⟨60000, 5, 5000⟩ none 1 [AttemptOutcome.non2xx]).1 t').2
          = false :=
  ⟨by decide,
    admission_precedes_delivery ⟨60000, 5, 5000⟩ none 1
      [AttemptOutcome.non2xx] [AttemptOutcome.ok2xx] (by decide)⟩

/-! ## Claim C4: category classification -/

theorem splitOnSlash_ne_nil (t : List Char) : splitOnSlash t ≠ [] := by
  cases t with
  | nil => simp [splitOnSlash]
  | cons c rest =>
      simp only [splitOnSlash]
      split
      · simp
      · split <;> simp

/-- A topic splits into at least two parts exactly when it contains a path
separator. -/
theorem splitOnSlash_two_le (t : List Char) :
    2 ≤ (splitOnSlash t).length ↔ '/' ∈ t := by
  induction t with
  | nil => simp [splitOnSlash]
  | cons c rest ih =>
      simp only [splitOnSlash]
      by_cases hc : c = '/'
      · subst hc
        simp only [beq_self_eq_true, if_true, List.length_cons,
          List.mem_cons, true_or, iff_true]
        have := List.length_pos.mpr (splitOnSlash_ne_nil rest)
        omega
      · rw [if_neg (by simpa using hc)]
        obtain ⟨g, gs, hg⟩ :=
          List.exists_cons_of_ne_nil (splitOnSlash_ne_nil rest)
        rw [hg]
        simp only [List.length_cons, List.mem_cons]
        rw [hg] at ih
        simp only [List.length_cons] at ih
        constructor
        · intro h; exact Or.inr (ih.mp h)
        · intro h
          rcases h with h | h
          · exact absurd h.symm hc
          · exact ih.mpr h

/-- C4 (counterexample).  The claim predicts category unknown for every
topic without a path separator and run-collapsing replacement; the code
instead sanitizes the whole separator-free topic (Motion becomes motion,
not unknown) and replaces every non-alphanumeric character individually
(B--C becomes b__c, not b_c). -/
theorem extractEventType_claim_counterexample :
    extractEventType ("Motion".toList) = ("motion".toList) ∧
    ("motion".toList) ≠ unknownS ∧
    extractEventType ("A/B--C".toList) = ("b__c".toList) ∧
    ("b__c".toList) ≠ ("b_c".toList) := by
  refine ⟨by decide, by decide, by decide, by decide⟩

/-- C4 (amended).  extractEventType classifies as follows: the empty topic
is unknown; a topic containing a path separator is classified from its last
segment case-insensitively — people, human or person substrings give
peopledetection; else an object substring with analytics anywhere in the
topic gives objectdetection; else the lower-cased segment with every
non-alphanumeric character (individually) replaced by an underscore; and a
nonempty topic without any separator is lower-cased and sanitized as a
whole, not mapped to unknown. -/
theorem extractEventType_characterization (topic : List Char) :
    extractEventType topic = extractEventTypeSpec topic := by
  simp only [extractEventType, extractEventTypeSpec, lastSegment]
  by_cases h0 : topic = []
  · simp [h0]
  · rw [if_neg h0, if_neg h0]
    by_cases hs : '/' ∈ topic
    · rw [if_pos ((splitOnSlash_two_le topic).mpr hs), if_pos hs]
    · rw [if_neg (fun h => hs ((splitOnSlash_two_le topic).mp h)), if_neg hs]

/-! ## Claim C9: notification receiver responses -/

/-- C9.  A POST whose pathname starts with the push-endpoint prefix is
acknowledged with status 200 and the minimal empty SOAP envelope, whatever
the body contains — the response does not depend on the body, hence not on
whether normalization yields events or hits a parse failure (the normalizer
and processEventNotification are total: every error is swallowed inside, so
the 500 branch guarding response construction is never reached in the
model).  Every other method or path is answered 404. -/
theorem http_receiver_responses (idGen : Nat → List Char)
    (method pathname body body' : List Char) :
    ((method = postS ∧ startsWithL eventsPathS pathname = true) →
      (handleHttpRequest idGen method pathname body).1 =
          { status := 200, body := soapAckS } ∧
        (handleHttpRequest idGen method pathname body).2 =
          processEventNotification idGen body) ∧
    (handleHttpRequest idGen method pathname body).1 =
      (handleHttpRequest idGen method pathname body').1 ∧
    (¬ (method = postS ∧ startsWithL eventsPathS pathname = true) →
      (handleHttpRequest idGen method pathname body).1 =
        { status := 404, body := notFoundS }) := by
  refine ⟨fun h => ?_, ?_, fun h => ?_⟩
  · simp [handleHttpRequest, if_pos h]
  · by_cases h : method = postS ∧ startsWithL eventsPathS pathname = true
    · simp only [handleHttpRequest, if_pos h]
    · simp only [handleHttpRequest, if_neg h]
  · simp only [handleHttpRequest, if_neg h]

theorem http_receiver_responses_witness :
    (handleHttpRequest (fun _ => []) ("POST".toList) ("/events/123".toList)
        ("not xml at all".toList)).1 =
      { status := 200, body := soapAckS } ∧
    (handleHttpRequest (fun _ => []) ("GET".toList) ("/events/123".toList)
        []).1 = { status := 404, body := notFoundS } :=
  ⟨(http_receiver_responses (fun _ => []) ("POST".toList)
      ("/events/123".toList) ("not xml at all".toList) []).1
        ⟨by decide, by decide⟩ |>.1,
    (http_receiver_responses (fun _ => []) ("GET".toList)
      ("/events/123".toList) [] []).2.2 (by decide)⟩

/-! ## Claim C8: webhook retry policy -/

theorem sendWebhook_calls_le (l : List AttemptOutcome) :
    (sendWebhook l).1 ≤ l.length := by
  induction l with
  | nil => simp [sendWebhook]
  | cons o rest ih =>
      simp only [sendWebhook]
      split <;> simp <;> omega

theorem sendWebhook_all_fail (l : List AttemptOutcome)
    (h : ∀ o ∈ l, attemptFails o = true) :
    sendWebhook l = (l.length, false) := by
  induction l with
  | nil => rfl
  | cons o rest ih =>
      simp only [sendWebhook, if_pos (h o (by simp)),
        ih (fun o ho => h o (by simp [ho]))]
      rfl

theorem sendWebhook_first_success (pre rest : List AttemptOutcome)
    (h : ∀ o ∈ pre, attemptFails o = true) :
    sendWebhook (pre ++ AttemptOutcome.ok2xx :: rest) =
      (pre.length + 1, true) := by
  induction pre with
  | nil => rfl
  | cons o p ih =>
      have h1 : attemptFails o = true := h o (by simp)
      have h2 := ih (fun x hx => h x (by simp [hx]))
      simp only [List.cons_append, sendWebhook, h1, if_true, List.append_eq,
        h2, List.length_cons]

theorem dispatchEvents_length (evs : List (List AttemptOutcome)) :
    (dispatchEvents evs).length = evs.length := by
  induction evs with
  | nil => rfl
  | cons e es ih => simp [dispatchEvents, ih]

/-- C8.  The delivery loop makes at most retryAttempts fetch calls (one per
planned attempt); a non-2xx response and a timeout each count as a failed
attempt; a success after any sequence of failed attempts stops the loop
right there with the success result; failing every attempt ends the loop
with the delivery failure, which sendAlert turns into an emitted alertFailed
instead of an exception, so the dispatcher output always covers every
event. -/
theorem webhook_retry_policy (l pre rest : List AttemptOutcome)
    (evs : List (List AttemptOutcome)) :
    (sendWebhook l).1 ≤ l.length ∧
    attemptFails AttemptOutcome.non2xx = true ∧
    attemptFails AttemptOutcome.timeout = true ∧
    attemptFails AttemptOutcome.ok2xx = false ∧
    ((∀ o ∈ pre, attemptFails o = true) →
      sendWebhook (pre ++ AttemptOutcome.ok2xx :: rest) =
        (pre.length + 1, true)) ∧
    ((∀ o ∈ l, attemptFails o = true) →
      sendWebhook l = (l.length, false) ∧
        sendAlertDelivery l = AlertOutcome.alertFailed) ∧
    (dispatchEvents evs).length = evs.length :=
  ⟨sendWebhook_calls_le l, rfl, rfl, rfl,
    fun h => sendWebhook_first_success pre rest h,
    fun h => ⟨sendWebhook_all_fail l h,
      by simp [sendAlertDelivery, sendWebhook_all_fail l h]⟩,
    dispatchEvents_length evs⟩

theorem webhook_retry_policy_witness :
    (sendWebhook [AttemptOutcome.timeout, AttemptOutcome.non2xx,
        AttemptOutcome.non2xx]).1 ≤ 3 ∧
    sendWebhook ([AttemptOutcome.non2xx, AttemptOutcome.timeout] ++
        AttemptOutcome.ok2xx :: []) = (3, true) ∧
    sendWebhook [AttemptOutcome.timeout, AttemptOutcome.non2xx,
        AttemptOutcome.non2xx] = (3, false) ∧
    sendAlertDelivery [AttemptOutcome.timeout, AttemptOutcome.non2xx,
        AttemptOutcome.non2xx] = AlertOutcome.alertFailed ∧
    (dispatchEvents [[AttemptOutcome.timeout, AttemptOutcome.non2xx,
        AttemptOutcome.non2xx], [AttemptOutcome.ok2xx]]).length = 2 := by
  have h := webhook_retry_policy
    [AttemptOutcome.timeout, AttemptOutcome.non2xx, AttemptOutcome.non2xx]
    [AttemptOutcome.non2xx, AttemptOutcome.timeout] []
    [[AttemptOutcome.timeout, AttemptOutcome.non2xx, AttemptOutcome.non2xx],
      [AttemptOutcome.ok2xx]]
  exact ⟨h.1, h.2.2.2.2.1 (by decide), (h.2.2.2.2.2.1 (by decide)).1,
    (h.2.2.2.2.2.1 (by decide)).2, h.2.2.2.2.2.2⟩

/-! ## Claim C3: overlapping poll cycles -/

/-- C3 (the code contradicts the claim).  pollForEvents consults only the
running flag, the polling configuration and the subscription flag — the
class has no in-flight marker — so with all three guards passing, every
setInterval tick starts one more poll cycle: after two ticks with no cycle
finished in between, two pollForEvents invocations are in flight, which the
claim says must never happen (the second tick should have been skipped). -/
theorem poll_overlap_not_prevented :
    pollCycleSkipped ⟨true, true, true⟩ = false ∧
    pollLoopRun ⟨true, true, true⟩ [PollAction.tick, PollAction.tick] = 2 := by
  refine ⟨by decide, by decide⟩

/-! ## Claim C6: retry, recreate and disable lifecycle -/

theorem runFailingPolls_below_max (m : Nat) (rOk : Bool) :
    ∀ n, n < m → runFailingPolls m rOk n = ⟨true, true, n⟩ := by
  intro n
  induction n with
  | zero => intro _; rfl
  | succ k ih =>
      intro h
      have hk := ih (by omega)
      simp only [runFailingPolls, hk, pollForEvents]
      norm_num
      split_ifs <;> simp_all <;> omega

/-- C6.  With retry configured (retryOnError, maxRetries at least 1), from a
freshly active subscription: the first maxRetries − 1 consecutive failing
poll cycles only raise the retry count, attempting no recreate; the cycle
that brings the count to maxRetries attempts the recreate; a successful
recreate returns the state to active with retry count 0; a failed recreate
leaves the subscription inactive; a successful pull from any active state
resets the retry count; and from any state with an inactive subscription a
poll cycle changes nothing and calls neither pullMessages nor the recreate,
until the service is restarted by hand. -/
theorem subscription_retry_recreate_lifecycle (m : Nat) (hm : 1 ≤ m)
    (rOk : Bool) :
    (∀ n, n < m → runFailingPolls m rOk n = ⟨true, true, n⟩) ∧
    (∀ n, n + 1 < m →
      (pollForEvents true m (runFailingPolls m rOk n) false rOk).recreateAttempted
        = false) ∧
    (pollForEvents true m (runFailingPolls m rOk (m - 1)) false rOk).recreateAttempted
      = true ∧
    (rOk = true → runFailingPolls m rOk m = ⟨true, true, 0⟩) ∧
    (rOk = false → runFailingPolls m rOk m = ⟨true, false, m⟩) ∧
    (∀ k r, (pollForEvents true m ⟨true, true, k⟩ true r).state
      = ⟨true, true, 0⟩) ∧
    (∀ (s : PollState) (pull rec : Bool), s.subscriptionActive = false →
      pollForEvents true m s pull rec = ⟨s, false, false⟩) := by
  obtain ⟨k, rfl⟩ : ∃ k, m = k + 1 := ⟨m - 1, by omega⟩
  refine ⟨runFailingPolls_below_max (k + 1) rOk, ?_, ?_, ?_, ?_, ?_, ?_⟩
  · intro n hn
    rw [runFailingPolls_below_max (k + 1) rOk n (by omega)]
    simp only [pollForEvents]
    norm_num
    split_ifs <;> simp_all <;> omega
  · simp only [Nat.add_sub_cancel]
    rw [runFailingPolls_below_max (k + 1) rOk k (by omega)]
    simp [pollForEvents]
    split_ifs <;> rfl
  · intro hr
    subst hr
    have hk := runFailingPolls_below_max (k + 1) true k (by omega)
    simp only [runFailingPolls, hk, pollForEvents]
    simp [pollForEvents]
  · intro hr
    subst hr
    have hk := runFailingPolls_below_max (k + 1) false k (by omega)
    simp only [runFailingPolls, hk, pollForEvents]
    simp [pollForEvents]
  · intro j r
    simp [pollForEvents]
  · intro s pull rec hs
    cases hrun : s.isRunning <;> simp [pollForEvents, hs, hrun]

theorem subscription_retry_recreate_lifecycle_witness :
    1 ≤ 2 ∧
    runFailingPolls 2 true 1 = ⟨true, true, 1⟩ ∧
    (pollForEvents true 2 (runFailingPolls 2 true (2 - 1)) false
      true).recreateAttempted = true ∧
    runFailingPolls 2 true 2 = ⟨true, true, 0⟩ :=
  ⟨by decide,
    (subscription_retry_recreate_lifecycle 2 (by decide) true).1 1 (by decide),
    (subscription_retry_recreate_lifecycle 2 (by decide) true).2.2.1,
    (subscription_retry_recreate_lifecycle 2 (by decide) true).2.2.2.1 rfl⟩

/-! ## Claim C7: substring scan lemmas -/

theorem startsWithL_self_append (pat s : List Char) :
    startsWithL pat (pat ++ s) = true := by
  induction pat with
  | nil => rfl
  | cons a as ih => simp [startsWithL, ih]

theorem startsWithL_mono (pat : List Char) :
    ∀ s u : List Char, startsWithL pat s = true →
      startsWithL pat (s ++ u) = true := by
  induction pat with
  | nil => intro s u _; rfl
  | cons a as ih =>
      intro s u h
      cases s with
      | nil => simp [startsWithL] at h
      | cons b bs =>
          simp only [startsWithL, Bool.and_eq_true, beq_iff_eq,
            List.cons_append] at h ⊢
          exact ⟨h.1, ih bs u h.2⟩

theorem startsWithL_take (pat : List Char) :
    ∀ (s : List Char) (n : Nat), startsWithL pat s = true →
      pat.length ≤ n → startsWithL pat (s.take n) = true := by
  induction pat with
  | nil => intro s n _ _; rfl
  | cons a as ih =>
      intro s n h hn
      cases s with
      | nil => simp [startsWithL] at h
      | cons b bs =>
          cases n with
          | zero => simp at hn
          | succ m =>
              simp only [startsWithL, Bool.and_eq_true, List.take_succ_cons,
                List.length_cons] at h hn ⊢
              exact ⟨h.1, ih bs m h.2 (by omega)⟩

theorem findSubIdx_of_startsWith (pat s : List Char)
    (h : startsWithL pat s = true) : findSubIdx pat s = some 0 := by
  cases s <;> simp [findSubIdx, h]

theorem findSubIdx_nil_none (pat : List Char) (hp : pat ≠ []) :
    findSubIdx pat [] = none := by
  cases pat with
  | nil => exact absurd rfl hp
  | cons p ps => rfl

theorem findSubIdx_cons_none (pat : List Char) (c : Char) (t : List Char)
    (h : findSubIdx pat (c :: t) = none) :
    startsWithL pat (c :: t) = false ∧ findSubIdx pat t = none := by
  by_cases hs : startsWithL pat (c :: t) = true
  · rw [findSubIdx_of_startsWith pat _ hs] at h; cases h
  · refine ⟨by simpa using hs, ?_⟩
    simp only [findSubIdx, if_neg hs] at h
    simpa using h

theorem findSubIdx_append_none (pat : List Char) :
    ∀ a b : List Char, findSubIdx pat (a ++ b) = none →
      findSubIdx pat a = none := by
  intro a
  induction a with
  | nil =>
      intro b h
      cases pat with
      | nil =>
          rw [List.nil_append, findSubIdx_of_startsWith [] b rfl] at h
          cases h
      | cons p ps => exact findSubIdx_nil_none (p :: ps) (by simp)
  | cons c a' ih =>
      intro b h
      rw [List.cons_append] at h
      obtain ⟨hs, hrest⟩ := findSubIdx_cons_none pat c _ h
      have hs' : startsWithL pat (c :: a') = false := by
        cases hx : startsWithL pat (c :: a') with
        | false => rfl
        | true =>
            have := startsWithL_mono pat (c :: a') b hx
            rw [List.cons_append] at this
            rw [this] at hs
            cases hs
      simp [findSubIdx, hs', ih b hrest]

/-- If pat occurs nowhere in the prefix region (the pre characters and the
straddling positions), then the leftmost occurrence of pat in
pre ++ pat ++ post is exactly at index pre.length. -/
theorem findSubIdx_boundary (pat : List Char) (hpat : pat ≠ []) :
    ∀ pre post : List Char,
    findSubIdx pat ((pre ++ pat).dropLast) = none →
    findSubIdx pat (pre ++ (pat ++ post)) = some pre.length := by
  intro pre
  induction pre with
  | nil =>
      intro post _
      rw [List.nil_append]
      exact findSubIdx_of_startsWith pat _ (startsWithL_self_append pat post)
  | cons c pre' ih =>
      intro post h
      have hA : pre' ++ pat ≠ [] :=
        fun hx => hpat (List.append_eq_nil.mp hx).2
      rw [List.cons_append, List.dropLast_cons_of_ne_nil hA] at h
      obtain ⟨hs0, htail⟩ := findSubIdx_cons_none pat c _ h
      have hsfalse : startsWithL pat (c :: (pre' ++ (pat ++ post))) = false := by
        cases hx : startsWithL pat (c :: (pre' ++ (pat ++ post))) with
        | false => rfl
        | true =>
            exfalso
            have hsplit : c :: (pre' ++ (pat ++ post)) =
                (c :: (pre' ++ pat)) ++ post := by
              simp [List.append_assoc]
            have hdrop : (c :: (pre' ++ pat)).dropLast =
                (c :: (pre' ++ (pat ++ post))).take
                  ((c :: (pre' ++ pat)).length - 1) := by
              rw [List.dropLast_eq_take, hsplit,
                List.take_append_of_le_length (by omega)]
            have hlen : pat.length ≤ (c :: (pre' ++ pat)).length - 1 := by
              simp [List.length_append]
            have hres := startsWithL_take pat _ _ hx hlen
            rw [← hdrop, List.dropLast_cons_of_ne_nil hA] at hres
            rw [hres] at hs0
            cases hs0
      rw [List.cons_append]
      simp only [findSubIdx, hsfalse, Bool.false_eq_true, if_false,
        ih post htail, Option.map_some', List.length_cons]

/-! ## Claim C7: block extraction lemmas -/

theorem findSubIdx_some_ne_nil (pat : List Char) (hp : pat ≠ [])
    (s : List Char) (i : Nat) (h : findSubIdx pat s = some i) : s ≠ [] := by
  intro hs
  subst hs
  rw [findSubIdx_nil_none pat hp] at h
  cases h

/-- The block scan does not depend on the fuel once the fuel exceeds the
input length. -/
theorem extractBlocksF_congr :
    ∀ (f1 f2 : Nat) (s : List Char), s.length < f1 → s.length < f2 →
      extractBlocksF f1 s = extractBlocksF f2 s := by
  intro f1
  induction f1 with
  | zero => intro f2 s h1 _; exact absurd h1 (by omega)
  | succ f ih =>
      intro f2 s h1 h2
      cases f2 with
      | zero => exact absurd h2 (by omega)
      | succ g =>
          simp only [extractBlocksF]
          cases hopen : findSubIdx openTagS s with
          | none => rfl
          | some i =>
              dsimp only
              cases hclose : findSubIdx closeTagS
                  (s.drop (i + openTagS.length)) with
              | none => rfl
              | some j =>
                  dsimp only
                  have hs : s ≠ [] :=
                    findSubIdx_some_ne_nil openTagS (by decide) s i hopen
                  have hspos : 0 < s.length := List.length_pos.mpr hs
                  have hlen1 := List.length_drop (i + openTagS.length) s
                  have hlen2 := List.length_drop (j + closeTagS.length)
                    (s.drop (i + openTagS.length))
                  have hopos : 0 < openTagS.length := by decide
                  congr 1
                  exact ih g ((s.drop (i + openTagS.length)).drop
                    (j + closeTagS.length)) (by omega) (by omega)

theorem extractBlocksF_eq (fuel : Nat) (s : List Char)
    (h : s.length < fuel) : extractBlocksF fuel s = extractBlocks s :=
  extractBlocksF_congr fuel (s.length + 1) s h (by omega)

theorem extractBlocksF_succ (fuel : Nat) (s : List Char) :
    extractBlocksF (fuel + 1) s =
      match findSubIdx openTagS s with
      | none => []
      | some i =>
          match findSubIdx closeTagS (s.drop (i + openTagS.length)) with
          | none => []
          | some j =>
              (openTagS ++ (s.drop (i + openTagS.length)).take j ++
                  closeTagS) ::
                extractBlocksF fuel
                  ((s.drop (i + openTagS.length)).drop
                    (j + closeTagS.length)) := rfl

theorem extractBlocks_nil : extractBlocks [] = [] := by decide

/-- A payload that is junk without any open-tag occurrence yields no
blocks. -/
theorem extractBlocks_no_open (s : List Char)
    (h : findSubIdx openTagS s = none) : extractBlocks s = [] := by
  simp only [extractBlocks, extractBlocksF, h]

/-- One well-formed block at the front of the payload is matched exactly,
and scanning continues after its close tag. -/
theorem extractBlocks_block_cons (mid rest : List Char) (hmid : goodMid mid) :
    extractBlocks (openTagS ++ (mid ++ (closeTagS ++ rest))) =
      (openTagS ++ mid ++ closeTagS) :: extractBlocks rest := by
  have hopen : findSubIdx openTagS (openTagS ++ (mid ++ (closeTagS ++ rest)))
      = some 0 := findSubIdx_of_startsWith _ _ (startsWithL_self_append _ _)
  have hclose : findSubIdx closeTagS (mid ++ (closeTagS ++ rest))
      = some mid.length :=
    findSubIdx_boundary closeTagS (by decide) mid rest hmid
  have hdrop2 : (mid ++ (closeTagS ++ rest)).drop
      (mid.length + closeTagS.length) = rest := by
    rw [← List.drop_drop, List.drop_left, List.drop_left]
  have hopos : 0 < openTagS.length := by decide
  have hfe : extractBlocksF
      ((openTagS ++ (mid ++ (closeTagS ++ rest))).length) rest
        = extractBlocks rest :=
    extractBlocksF_eq _ _ (by simp [List.length_append]; omega)
  show extractBlocksF _ _ = _
  rw [extractBlocksF_succ]
  simp only [hopen, Nat.zero_add, List.drop_left, hclose, List.take_left,
    hdrop2, hfe]

/-- Junk with no open-tag occurrence (not even straddling its boundary with
the following open tag) in front of a block opening is skipped without
affecting the scan. -/
theorem extractBlocks_junk_skip (bad X : List Char) (hbad : badBlock bad) :
    extractBlocks (bad ++ (openTagS ++ X)) = extractBlocks (openTagS ++ X) := by
  have hfind : findSubIdx openTagS (bad ++ (openTagS ++ X))
      = some bad.length :=
    findSubIdx_boundary openTagS (by decide) bad X hbad
  have hfind0 : findSubIdx openTagS (openTagS ++ X) = some 0 :=
    findSubIdx_of_startsWith _ _ (startsWithL_self_append _ _)
  have hdropL : (bad ++ (openTagS ++ X)).drop (bad.length + openTagS.length)
      = X := by
    rw [← List.drop_drop, List.drop_left, List.drop_left]
  show extractBlocksF _ _ = extractBlocksF _ _
  rw [extractBlocksF_succ, extractBlocksF_succ]
  simp only [hfind, hfind0, Nat.zero_add, List.drop_left, hdropL]
  cases hclose : findSubIdx closeTagS X with
  | none => rfl
  | some j =>
      dsimp only
      congr 1
      have hl := List.length_drop (j + closeTagS.length) X
      have hopos : 0 < openTagS.length := by decide
      apply extractBlocksF_congr
      · simp only [List.length_append]
        omega
      · simp only [List.length_append]
        omega

/-! ## Claim C7: the normalizer round trip -/

theorem extractBlocks_payload_append (mids : List (List Char))
    (tail : List Char) :
    (∀ m ∈ mids, goodMid m) →
    extractBlocks (payloadOf mids ++ tail) =
      (mids.map fun m => openTagS ++ m ++ closeTagS) ++ extractBlocks tail := by
  induction mids with
  | nil => intro _; simp [payloadOf]
  | cons m ms ih =>
      intro h
      have hm : goodMid m := h m (by simp)
      have he : payloadOf (m :: ms) ++ tail =
          openTagS ++ (m ++ (closeTagS ++ (payloadOf ms ++ tail))) := by
        simp [payloadOf, List.append_assoc]
      rw [he, extractBlocks_block_cons m _ hm,
        ih (fun x hx => h x (by simp [hx]))]
      simp

theorem extractBlocks_payload (mids : List (List Char))
    (h : ∀ m ∈ mids, goodMid m) :
    extractBlocks (payloadOf mids) =
      mids.map fun m => openTagS ++ m ++ closeTagS := by
  have := extractBlocks_payload_append mids [] h
  simpa [extractBlocks_nil] using this

/-- C7.  The normalizer produces one event per well-formed embedded
NotificationMessage block: a payload that is the concatenation of N
well-formed blocks yields exactly N events, their ids are pairwise distinct
whenever the per-block id generator never repeats (the source draws each id
from the clock plus a fresh random suffix), and inserting one malformed
block — one whose open tag matches nowhere — anywhere between the
well-formed blocks leaves the result exactly the events of the other
blocks: the malformed block is skipped and its N−1 siblings are all still
parsed. -/
theorem parseEventXml_block_counts (idGen : Nat → List Char)
    (mids1 mids2 : List (List Char)) (bad : List Char)
    (hgood : ∀ m ∈ mids1 ++ mids2, goodMid m)
    (hbad : badBlock bad)
    (hinj : Function.Injective idGen) :
    (parseEventXml idGen (payloadOf (mids1 ++ mids2))).length
        = (mids1 ++ mids2).length ∧
    ((parseEventXml idGen (payloadOf (mids1 ++ mids2))).map
        (fun e => e.id)).Nodup ∧
    parseEventXml idGen (payloadOf mids1 ++ (bad ++ payloadOf mids2))
      = parseEventXml idGen (payloadOf (mids1 ++ mids2)) := by
  have hblocksN : extractBlocks (payloadOf (mids1 ++ mids2)) =
      (mids1 ++ mids2).map (fun m => openTagS ++ m ++ closeTagS) :=
    extractBlocks_payload _ hgood
  have hgood1 : ∀ m ∈ mids1, goodMid m := fun m hm => hgood m (by simp [hm])
  have hgood2 : ∀ m ∈ mids2, goodMid m := fun m hm => hgood m (by simp [hm])
  have hbadOnly : findSubIdx openTagS bad = none := by
    apply findSubIdx_append_none openTagS bad openTagS.dropLast
    have hd : (bad ++ openTagS).dropLast = bad ++ openTagS.dropLast := by
      rw [List.dropLast_append_of_ne_nil]
      decide
    have hbad' : findSubIdx openTagS ((bad ++ openTagS).dropLast) = none := hbad
    rwa [hd] at hbad'
  have hmal : extractBlocks (payloadOf mids1 ++ (bad ++ payloadOf mids2)) =
      extractBlocks (payloadOf (mids1 ++ mids2)) := by
    rw [extractBlocks_payload_append mids1 _ hgood1]
    cases mids2 with
    | nil =>
        rw [hblocksN, show payloadOf ([] : List (List Char)) = [] from rfl,
          List.append_nil, extractBlocks_no_open bad hbadOnly]
        simp
    | cons m2 ms2 =>
        have he : bad ++ payloadOf (m2 :: ms2) =
            bad ++ (openTagS ++ (m2 ++ (closeTagS ++ payloadOf ms2))) := by
          simp [payloadOf, List.append_assoc]
        rw [he, extractBlocks_junk_skip bad _ hbad,
          extractBlocks_block_cons m2 _ (hgood2 m2 (by simp)),
          extractBlocks_payload ms2 (fun x hx => hgood2 x (by simp [hx])),
          hblocksN]
        simp
  refine ⟨?_, ?_, ?_⟩
  · simp [parseEventXml, hblocksN]
  · have hids : (parseEventXml idGen
        (payloadOf (mids1 ++ mids2))).map (fun e => e.id) =
        (extractBlocks (payloadOf (mids1 ++ mids2))).enum.map
          (fun p => idGen p.1) := by
      simp [parseEventXml, mkProcessedEvent, List.map_map, Function.comp]
    have h2 : (extractBlocks (payloadOf (mids1 ++ mids2))).enum.map
        (fun p => idGen p.1) =
        ((extractBlocks (payloadOf (mids1 ++ mids2))).enum.map
          Prod.fst).map idGen := by
      rw [List.map_map]
      rfl
    rw [hids, h2, List.enum_map_fst]
    exact (List.nodup_range _).map hinj
  · simp [parseEventXml, hmal]

theorem parseEventXml_block_counts_witness :
    (∀ m ∈ [("inner data 1".toList), ("inner data 2".toList)], goodMid m) ∧
    badBlock ("<wsnt:Notification".toList) ∧
    Function.Injective (fun k => List.replicate k 'x') ∧
    (parseEventXml (fun k => List.replicate k 'x')
        (payloadOf ([("inner data 1".toList)] ++
          [("inner data 2".toList)]))).length = 2 ∧
    parseEventXml (fun k => List.replicate k 'x')
        (payloadOf [("inner data 1".toList)] ++
          (("<wsnt:Notification".toList) ++
            payloadOf [("inner data 2".toList)]))
      = parseEventXml (fun k => List.replicate k 'x')
          (payloadOf ([("inner data 1".toList)] ++
            [("inner data 2".toList)])) := by
  have hinj : Function.Injective (fun k => List.replicate k 'x') := by
    intro a b h
    have := congrArg List.length h
    simpa using this
  have h := parseEventXml_block_counts (fun k => List.replicate k 'x')
    [("inner data 1".toList)] [("inner data 2".toList)]
    ("<wsnt:Notification".toList) (by decide) (by decide) hinj
  exact ⟨by decide, by decide, hinj, h.1, h.2.2⟩

end OnvifAI
